import Mathlib

/-!
Shallow embedding of the book/author catalog API of this repository
(the advanced-api-project application): the django-filter filter sets
(filters.py), the DRF search and ordering behaviour as configured by the
views (views.py), serializer validation (serializers.py) and the mutating
endpoints.  Python strings are modelled at the character-list level;
Django case-insensitive lookups lowercase both sides.  Query sets are
modelled as lists of records in store order, so a filter is List.filter
and ORDER BY is a stable sort by the requested keys.
-/

namespace ApiModel

/-- Python str.lower, applied at the character level: the lowering that
Django i-lookups (icontains, iexact, istartswith) apply to both sides. -/
def lower (s : String) : List Char := s.toList.map Char.toLower

/-- The first list is a prefix of the second (character lists). -/
def pfxOf : List Char → List Char → Bool
  | [], _ => true
  | _ :: _, [] => false
  | a :: as, b :: bs => a == b && pfxOf as bs

/-- The first list occurs as a contiguous substring of the second:
the core of the Django contains lookup. -/
def subList (need : List Char) : List Char → Bool
  | [] => need.isEmpty
  | c :: t => pfxOf need (c :: t) || subList need t

/-- Django icontains lookup: case-insensitive substring match. -/
def icontains (hay need : String) : Bool :=
  subList (lower need) (lower hay)

/-- Author model (models.py): id is the system-assigned primary key. -/
structure Author where
  id : Nat
  name : String
  deriving Repr, DecidableEq

/-- Book model (models.py): title, publication_year, and a foreign key
to its author. -/
structure Book where
  id : Nat
  title : String
  publication_year : Int
  authorId : Nat
  deriving Repr, DecidableEq

/-- The record store: the authors and books tables, rows in store order. -/
structure Store where
  authors : List Author
  books : List Book
  deriving Repr, DecidableEq

/-- The author name reached through the book's foreign key
(the author__name traversal): the row whose primary key matches. -/
def authorName (st : Store) (b : Book) : String :=
  match st.authors.find? (fun a => a.id == b.authorId) with
  | some a => a.name
  | none => ""

/-- BookFilter.custom_search (filters.py): with a non-empty value, keep
the books whose title or author name case-insensitively contains it
(Q(title__icontains=value) OR Q(author__name__icontains=value));
a falsy (empty) value leaves the query set unchanged. -/
def custom_search (st : Store) (value : String) (qs : List Book) : List Book :=
  if value ≠ "" then
    qs.filter (fun b => icontains b.title value || icontains (authorName st b) value)
  else qs

/-- Characters on which the DRF SearchFilter splits the search parameter
into terms: it first replaces commas by blanks, then splits on runs of
whitespace. -/
def isSep (c : Char) : Bool := c == ',' || c.isWhitespace

/-- Splitting into search terms, accumulator form: returns the run of
non-separator characters that ends at the front, and the completed terms
behind it. -/
def splitCore : List Char → List Char × List (List Char)
  | [] => ([], [])
  | c :: t =>
    let p := splitCore t
    if isSep c then ([], if p.1.isEmpty then p.2 else p.1 :: p.2)
    else (c :: p.1, p.2)

/-- The search terms of a character list: maximal runs of non-separator
characters, in order.  Models the DRF SearchFilter term splitting
(applied here to the already lowered value; lowering fixes separators,
so the two orders agree). -/
def splitTerms (l : List Char) : List (List Char) :=
  let p := splitCore l
  if p.1.isEmpty then p.2 else p.1 :: p.2

/-- One search term matched against one book under the search_fields
configured on BookListView (views.py): icontains on title, icontains on
author__name, iexact on title (the =title entry), istartswith on title
(the ^title entry).  The term is already lowered. -/
def termMatches (st : Store) (t : List Char) (b : Book) : Bool :=
  subList t (lower b.title) || subList t (lower (authorName st b)) ||
  (lower b.title == t) || pfxOf t (lower b.title)

/-- The DRF SearchFilter stage as configured on BookListView: every term
of the search value must match at least one of the configured fields;
with no terms the query set is unchanged. -/
def search_filter (st : Store) (value : String) (qs : List Book) : List Book :=
  let terms := splitTerms (lower value)
  if terms.isEmpty then qs
  else qs.filter (fun b => terms.all (fun t => termMatches st t b))

/-- The book list search pipeline for a request carrying a search value:
DjangoFilterBackend applies BookFilter.custom_search, then SearchFilter
filters the result again (the two backends run in the order declared in
filter_backends).  qs is the query set the other filters produced. -/
def bookSearchPipeline (st : Store) (value : String) (qs : List Book) : List Book :=
  search_filter st value (custom_search st value qs)

/-- Python str.strip(): whitespace removed from both ends. -/
def pyStrip (l : List Char) : List Char :=
  ((l.dropWhile Char.isWhitespace).reverse.dropWhile Char.isWhitespace).reverse

/-- Python str.split on a comma: consecutive or outer commas produce
empty pieces, and the empty string yields one empty piece. -/
def splitComma : List Char → List (List Char)
  | [] => [[]]
  | c :: t =>
    if c == ',' then [] :: splitComma t
    else
      match splitComma t with
      | h :: r => (c :: h) :: r
      | [] => [[c]]

/-- Python str.lstrip with the minus character: every leading minus sign
is removed, not just one. -/
def lstripMinus (l : List Char) : List Char := l.dropWhile (fun c => c == '-')

/-- BookListView.ordering_fields (views.py): the allow-list of sortable
book fields. -/
def bookOrderingFields : List (List Char) :=
  ["title".toList, "publication_year".toList, "author__name".toList, "id".toList]

/-- BookListView.get_ordering (views.py): strip the ordering parameter,
return the default ['title'] when it is empty, otherwise split it on
commas, strip each term, keep the terms whose field (the term with all
leading minus signs removed, Python lstrip) is in the allow-list, and
fall back to the default when none survives.  The absent parameter is
the empty string (query_params.get with default '').  Note that the DRF
OrderingFilter backend calls its own get_ordering and never this
overridden view method, so at runtime the validation this method
performs is dead code; the live backend is drf_get_ordering_books
below, and on expressions whose stripped terms are allow-listed fields
with at most one leading minus sign the two compute the same list. -/
def get_ordering_books (s : String) : List (List Char) :=
  let ordering := pyStrip s.toList
  if ordering.isEmpty then ["title".toList]
  else
    let ordering_fields := (splitComma ordering).map pyStrip
    let validated := ordering_fields.foldl
      (fun acc field =>
        if bookOrderingFields.contains (lstripMinus field) then acc ++ [field] else acc)
      []
    if validated.isEmpty then ["title".toList] else validated

/-- AuthorListView.ordering_fields (views.py). -/
def authorOrderingFields : List (List Char) := ["name".toList, "id".toList]

/-- Removal of one leading minus sign, the descending marker: what the
claim's "stripping a leading minus sign" denotes, and what the DRF
OrderingFilter term validation performs. -/
def stripOneMinus : List Char → List Char
  | '-' :: r => r
  | l => l

/-- Term validation of the DRF OrderingFilter backend used unchanged by
AuthorListView: a single leading minus sign is removed before the
allow-list lookup. -/
def termValidAuthors (t : List Char) : Bool :=
  authorOrderingFields.contains (stripOneMinus t)

/-- The DRF OrderingFilter.get_ordering applied to AuthorListView
(views.py configures ordering_fields = ['name', 'id'] and the default
ordering ['name'] and does not override get_ordering): a missing or
falsy (empty) parameter yields the default, otherwise the parameter is
split on commas, each piece stripped, invalid terms removed, and the
default returned when none survives. -/
def drf_get_ordering_authors (s : Option String) : List (List Char) :=
  match s with
  | none => ["name".toList]
  | some p =>
    if p.toList.isEmpty then ["name".toList]
    else
      let fields := (splitComma p.toList).map pyStrip
      let ordering := fields.filter termValidAuthors
      if ordering.isEmpty then ["name".toList] else ordering

/-- Declarative restatement of the claim's ordering validation for the
author endpoint (single leading minus removed, default ascending name),
compared against drf_get_ordering_authors by theorem. -/
def orderingSpecAuthors (p : String) : List (List Char) :=
  let kept := ((splitComma p.toList).map pyStrip).filter termValidAuthors
  if kept.isEmpty then ["name".toList] else kept

/-- Term validation of the live DRF OrderingFilter backend on
BookListView (ordering_fields = ['title', 'publication_year',
'author__name', 'id']): a single leading minus sign is removed before
the allow-list lookup. -/
def termValidBooks (t : List Char) : Bool :=
  bookOrderingFields.contains (stripOneMinus t)

/-- The DRF OrderingFilter.get_ordering as it actually runs on the book
list endpoint (the backend never invokes the view's overridden
get_ordering method): a missing or falsy (empty) ordering parameter
yields the view's default ['title'], otherwise the parameter is split
on commas, each piece stripped, terms failing the single-minus
allow-list validation silently removed, and the default returned when
none survives. -/
def drf_get_ordering_books (s : Option String) : List (List Char) :=
  match s with
  | none => ["title".toList]
  | some p =>
    if p.toList.isEmpty then ["title".toList]
    else
      let fields := (splitComma p.toList).map pyStrip
      let ordering := fields.filter termValidBooks
      if ordering.isEmpty then ["title".toList] else ordering

/-- Declarative restatement of the claim's ordering validation for the
book endpoint (a term is dropped exactly when its field after stripping
a leading minus sign is outside the allow-list; default ascending title
when nothing remains), compared against drf_get_ordering_books by
theorem. -/
def orderingSpecBooksLive (p : String) : List (List Char) :=
  let kept := ((splitComma p.toList).map pyStrip).filter termValidBooks
  if kept.isEmpty then ["title".toList] else kept

/-- The sortable book fields. -/
inductive OrdField
  | title
  | publication_year
  | author_name
  | id
  deriving Repr, DecidableEq

/-- One validated ordering term: a field and its direction. -/
structure OrdTerm where
  field : OrdField
  desc : Bool
  deriving Repr, DecidableEq

/-- Parsing of a validated ordering string as the ORM order_by reads it:
one optional leading minus sign for descending, then a field name. -/
def parseTerm (t : List Char) : Option OrdTerm :=
  let p : Bool × List Char := match t with
    | '-' :: r => (true, r)
    | l => (false, l)
  if p.2 = "title".toList then some ⟨.title, p.1⟩
  else if p.2 = "publication_year".toList then some ⟨.publication_year, p.1⟩
  else if p.2 = "author__name".toList then some ⟨.author_name, p.1⟩
  else if p.2 = "id".toList then some ⟨.id, p.1⟩
  else none

/-- Three-way comparison from a linear order. -/
def cmpLin {α : Type} [LinearOrder α] (x y : α) : Ordering :=
  if x < y then .lt else if y < x then .gt else .eq

/-- Comparison of two books on one sortable field: string fields compare
by their character sequence (the store's binary collation), numeric
fields by value. -/
def cmpField (st : Store) (f : OrdField) (b1 b2 : Book) : Ordering :=
  match f with
  | .title => cmpLin b1.title.toList b2.title.toList
  | .publication_year => cmpLin b1.publication_year b2.publication_year
  | .author_name => cmpLin (authorName st b1).toList (authorName st b2).toList
  | .id => cmpLin b1.id b2.id

/-- Comparison of two books on one ordering term: a descending term
swaps the operand roles. -/
def cmpTerm (st : Store) (t : OrdTerm) (b1 b2 : Book) : Ordering :=
  if t.desc then cmpField st t.field b2 b1 else cmpField st t.field b1 b2

/-- Lexicographic comparison over the validated ordering terms, in the
order order_by receives them. -/
def cmpTerms (st : Store) : List OrdTerm → Book → Book → Ordering
  | [], _, _ => .eq
  | t :: ts, b1, b2 =>
    match cmpTerm st t b1 b2 with
    | .eq => cmpTerms st ts b1 b2
    | o => o

/-- The non-strict order the ordering stage sorts by. -/
def bookLe (st : Store) (ts : List OrdTerm) (b1 b2 : Book) : Prop :=
  cmpTerms st ts b1 b2 ≠ .gt

instance (st : Store) (ts : List OrdTerm) : DecidableRel (bookLe st ts) :=
  fun b1 b2 => inferInstanceAs (Decidable (cmpTerms st ts b1 b2 ≠ .gt))

/-- ORDER BY over the query set: a sort by the requested keys.  Rows
whose keys compare equal stay in their underlying order (the model sort
is stable); the implementation adds no further key. -/
def order_by (st : Store) (ts : List OrdTerm) (qs : List Book) : List Book :=
  List.insertionSort (bookLe st ts) qs

/-- The ordering stage of the book list endpoint: the validated terms of
the ordering parameter, parsed and applied to the query set. -/
def bookOrderPipeline (st : Store) (s : String) (qs : List Book) : List Book :=
  order_by st ((get_ordering_books s).filterMap parseTerm) qs

/-- Whether an author owns at least one book: the reverse foreign-key
join behind the books__isnull lookups. -/
def ownsBook (st : Store) (a : Author) : Bool :=
  st.books.any (fun b => b.authorId == a.id)

/-- AuthorFilter.filter_has_books (filters.py): a truthy value keeps the
authors joined to at least one book (books__isnull=False, de-duplicated),
a falsy one keeps the authors joined to none (books__isnull=True). -/
def filter_has_books (st : Store) (value : Bool) (qs : List Author) : List Author :=
  if value then qs.filter (fun a => ownsBook st a)
  else qs.filter (fun a => !(ownsBook st a))

/-- BookListView.get_queryset (views.py): the two convenience filters.
Each query parameter applies only when present with a value whose
lowercase form is the word true; the recent one keeps books with
publication_year at least current_year - 10, the classic one keeps
books with publication_year below 1950, each narrowing the query set. -/
def get_queryset_convenience (recentParam classicParam : Option String)
    (currentYear : Int) (qs : List Book) : List Book :=
  let applies : Option String → Bool := fun p =>
    match p with
    | some v => !v.isEmpty && (lower v == "true".toList)
    | none => false
  let qs1 := if applies recentParam
    then qs.filter (fun b => currentYear - 10 ≤ b.publication_year) else qs
  if applies classicParam
    then qs1.filter (fun b => b.publication_year < 1950) else qs1

/-- The books owned by the author with the given primary key. -/
def booksOf (st : Store) (aid : Nat) : List Book :=
  st.books.filter (fun b => b.authorId == aid)

/-- Insertion into a strictly ascending list of years, dropping the year
when it is already present. -/
def insertYear (y : Int) : List Int → List Int
  | [] => [y]
  | z :: t =>
    if y < z then y :: z :: t
    else if y = z then z :: t
    else z :: insertYear y t

/-- The distinct publication years in ascending order: the model of
SELECT DISTINCT publication_year ... ORDER BY publication_year. -/
def distinctSortedYears (l : List Int) : List Int := l.foldr insertYear []

/-- AuthorDetailView.retrieve (views.py): the statistics block of the
author detail response, total owned book count and the distinct sorted
publication years, the year list short-circuited to [] when the count
is zero. -/
def authorStatistics (st : Store) (aid : Nat) : Nat × List Int :=
  let bs := booksOf st aid
  (bs.length,
   if bs.length > 0 then distinctSortedYears (bs.map Book.publication_year) else [])

/-- Modelled from the spec: the pagination configuration (the DRF
settings or pagination class of advanced-api-project) is not among the
source files; the spec fixes a page size of 20 for books. -/
def bookPageSize : Nat := 20

/-- Modelled from the spec: the maximum page size of the pagination
contract. -/
def maxPageSize : Nat := 100

/-- Modelled from the spec: page-number pagination over the ordered,
filtered result, the page selected by the numeric 1-indexed page query
parameter. -/
def paginateBooks (page : Nat) (l : List Book) : List Book :=
  (l.drop ((page - 1) * bookPageSize)).take bookPageSize

/-- BookDetailView.retrieve (views.py): other books by the same author,
the requested book excluded, in the model's default title order
(Book.Meta.ordering), limited to the first 5. -/
def relatedBooksOf (st : Store) (b : Book) : List Book :=
  (order_by st [⟨.title, false⟩]
    (st.books.filter (fun x => x.authorId == b.authorId && !(x.id == b.id)))).take 5

/-- BookDetailView.retrieve (views.py): the related_books key is set
only when the related query set is truthy (non-empty); otherwise the
response carries no such key. -/
def bookDetailRelated (st : Store) (b : Book) : Option (List Book) :=
  let rel := relatedBooksOf st b
  if rel.isEmpty then none else some rel

/-- The caller's authentication state as the permission layer sees it:
whether credentials were supplied at all, and whether they identify an
authenticated user. -/
structure AuthState where
  hasCredentials : Bool
  isAuthenticated : Bool
  deriving Repr, DecidableEq

/-- Modelled from the spec: the project settings choosing the
authentication classes are not among the source files; per the spec,
a rejected request yields 401 when no credentials were supplied at all
and 403 when credentials were present but insufficient. -/
def deniedStatus (auth : AuthState) : Nat :=
  if auth.hasCredentials then 403 else 401

/-- The body of a create or update request for a book. -/
structure BookPayload where
  title : String
  publication_year : Int
  authorId : Nat
  deriving Repr, DecidableEq

/-- BookSerializer.validate_publication_year (serializers.py): a year
strictly beyond the current calendar year is rejected with the
field-level message; anything else is returned unchanged. -/
def validate_publication_year (currentYear value : Int) : Except String Int :=
  if value > currentYear then
    .error "Publication year cannot be in the future."
  else .ok value

/-- The field-level errors of BookSerializer.is_valid for a payload:
the author foreign key must name an existing author, the custom
publication-year validation must pass, and the (title, author) pair
must be unique in the store (Book.Meta.unique_together), the excluded
primary key allowing an update to keep its own pair. -/
def bookFieldErrors (st : Store) (currentYear : Int) (p : BookPayload)
    (excludeId : Option Nat) : List (String × String) :=
  (if st.authors.all (fun a => a.id != p.authorId)
   then [("author", "Invalid pk")] else []) ++
  (match validate_publication_year currentYear p.publication_year with
   | .error m => [("publication_year", m)]
   | .ok _ => []) ++
  (if st.books.any (fun b =>
      b.title == p.title && b.authorId == p.authorId && excludeId != some b.id)
   then [("non_field_errors", "The fields title, author must make a unique set.")]
   else [])

/-- One endpoint response: the HTTP status and the field-level errors of
a validation failure. -/
structure EndpointResponse where
  status : Nat
  fieldErrors : List (String × String)
  deriving Repr, DecidableEq

/-- The next free primary key of the books table. -/
def nextBookId (st : Store) : Nat :=
  (st.books.map Book.id).foldl max 0 + 1

/-- BookCreateView (views.py): IsAuthenticated gates the request; then
is_valid(raise_exception=True) turns field errors into a 400 without
touching the store, and a valid payload is saved and answered 201. -/
def handleBookCreate (auth : AuthState) (currentYear : Int) (st : Store)
    (p : BookPayload) : EndpointResponse × Store :=
  if !auth.isAuthenticated then (⟨deniedStatus auth, []⟩, st)
  else
    let errs := bookFieldErrors st currentYear p none
    if errs.isEmpty then
      (⟨201, []⟩,
       { st with books := st.books ++ [⟨nextBookId st, p.title, p.publication_year, p.authorId⟩] })
    else (⟨400, errs⟩, st)

/-- BookUpdateView (views.py): IsAuthenticated gates the request, the
target is looked up by primary key (404 when absent), validation errors
yield a 400 with the store untouched, and a valid payload replaces the
record's fields. -/
def handleBookUpdate (auth : AuthState) (currentYear : Int) (st : Store)
    (pk : Nat) (p : BookPayload) : EndpointResponse × Store :=
  if !auth.isAuthenticated then (⟨deniedStatus auth, []⟩, st)
  else
    match st.books.find? (fun b => b.id == pk) with
    | none => (⟨404, []⟩, st)
    | some _ =>
      let errs := bookFieldErrors st currentYear p (some pk)
      if errs.isEmpty then
        (⟨200, []⟩,
         { st with books := st.books.map (fun b =>
             if b.id == pk then ⟨pk, p.title, p.publication_year, p.authorId⟩ else b) })
      else (⟨400, errs⟩, st)

/-- BookDeleteView (views.py): IsAuthenticated gates the request, the
target is looked up by primary key (404 when absent), and deletion
answers 200 with the record removed. -/
def handleBookDelete (auth : AuthState) (st : Store) (pk : Nat) :
    EndpointResponse × Store :=
  if !auth.isAuthenticated then (⟨deniedStatus auth, []⟩, st)
  else
    match st.books.find? (fun b => b.id == pk) with
    | none => (⟨404, []⟩, st)
    | some _ =>
      (⟨200, []⟩, { st with books := st.books.filter (fun b => !(b.id == pk)) })

/-- Demonstration store: the scenario rows the spec and tests use. -/
def demoStore : Store :=
  { authors := [⟨1, "J.K. Rowling"⟩, ⟨2, "J.R.R. Tolkien"⟩, ⟨3, "George Orwell"⟩],
    books :=
      [⟨1, "Harry Potter and the Philosopher's Stone", 1997, 1⟩,
       ⟨2, "Harry Potter and the Chamber of Secrets", 1998, 1⟩,
       ⟨3, "The Hobbit", 1937, 2⟩,
       ⟨4, "1984", 1949, 3⟩] }

/-- Two books sharing one title by different authors (the pair is unique
only together with the author), stored with the larger primary key
first. -/
def tieB2 : Book := ⟨2, "Same Title", 2001, 2⟩

/-- The smaller-keyed of the two equally titled books. -/
def tieB1 : Book := ⟨1, "Same Title", 2000, 1⟩

/-- Store for the ordering tie counterexample. -/
def tieStore : Store :=
  { authors := [⟨1, "A"⟩, ⟨2, "B"⟩], books := [tieB2, tieB1] }

theorem pfx_trans : ∀ {a b c : List Char}, pfxOf a b = true → pfxOf b c = true →
    pfxOf a c = true
  | [], _, _, _, _ => rfl
  | _ :: _, [], _, h1, _ => by simp [pfxOf] at h1
  | _ :: _, _ :: _, [], _, h2 => by simp [pfxOf] at h2
  | a :: as, b :: bs, c :: cs, h1, h2 => by
    simp only [pfxOf, Bool.and_eq_true, beq_iff_eq] at h1 h2 ⊢
    exact ⟨h1.1.trans h2.1, pfx_trans h1.2 h2.2⟩

theorem sub_of_pfx : ∀ {a b : List Char}, pfxOf a b = true → subList a b = true
  | [], [], _ => rfl
  | _ :: _, [], h => by simp [pfxOf] at h
  | _, _ :: _, h => by simp only [subList, Bool.or_eq_true]; exact Or.inl h

theorem sub_nil_left : ∀ (c : List Char), subList [] c = true
  | [] => rfl
  | _ :: _ => by simp only [subList, Bool.or_eq_true]; exact Or.inl rfl

theorem sub_pfx : ∀ {b : List Char} (c : List Char) {a : List Char},
    subList a b = true → pfxOf b c = true → subList a c = true
  | [], c, a, h1, _ => by
    have : a = [] := by
      cases a with
      | nil => rfl
      | cons x xs => simp [subList, List.isEmpty] at h1
    exact this ▸ sub_nil_left c
  | x :: bt, c, a, h1, h2 => by
    rcases c with _ | ⟨y, ct⟩
    · simp [pfxOf] at h2
    simp only [subList, Bool.or_eq_true] at h1
    simp only [pfxOf, Bool.and_eq_true] at h2
    rcases h1 with h1 | h1
    · exact sub_of_pfx (pfx_trans h1 (by simp only [pfxOf, Bool.and_eq_true]; exact h2))
    · have := sub_pfx ct h1 h2.2
      simp only [subList, Bool.or_eq_true]
      exact Or.inr this

theorem sub_trans : ∀ {c a b : List Char}, subList a b = true → subList b c = true →
    subList a c = true
  | [], a, b, h1, h2 => by
    have hb : b = [] := by
      cases b with
      | nil => rfl
      | cons x xs => simp [subList, List.isEmpty] at h2
    subst hb
    exact h1
  | x :: ct, a, b, h1, h2 => by
    simp only [subList, Bool.or_eq_true] at h2
    rcases h2 with h2 | h2
    · exact sub_pfx (x :: ct) h1 h2
    · have := sub_trans h1 h2
      simp only [subList, Bool.or_eq_true]
      exact Or.inr this

theorem splitCore_invariant : ∀ (l : List Char),
    pfxOf (splitCore l).1 l = true ∧
    ∀ t ∈ (splitCore l).2, subList t l = true
  | [] => ⟨rfl, by intro t ht; simp [splitCore] at ht⟩
  | c :: l => by
    obtain ⟨hp, hd⟩ := splitCore_invariant l
    simp only [splitCore]
    by_cases hs : isSep c = true
    · rw [if_pos hs]
      refine ⟨rfl, ?_⟩
      intro t ht
      by_cases hc : (splitCore l).1.isEmpty = true
      · rw [if_pos hc] at ht
        have := hd t ht
        simp only [subList, Bool.or_eq_true]
        exact Or.inr this
      · rw [if_neg hc] at ht
        simp only [List.mem_cons] at ht
        have hsub : subList t l = true := by
          rcases ht with h | h
          · exact h ▸ sub_of_pfx hp
          · exact hd t h
        simp only [subList, Bool.or_eq_true]
        exact Or.inr hsub
    · rw [if_neg hs]
      refine ⟨?_, ?_⟩
      · show pfxOf (c :: (splitCore l).1) (c :: l) = true
        simp only [pfxOf, Bool.and_eq_true]
        exact ⟨by simp, hp⟩
      · intro t ht
        have := hd t ht
        simp only [subList, Bool.or_eq_true]
        exact Or.inr this

theorem splitTerms_sub {l : List Char} {t : List Char} (ht : t ∈ splitTerms l) :
    subList t l = true := by
  obtain ⟨hp, hd⟩ := splitCore_invariant l
  simp only [splitTerms] at ht
  by_cases hc : (splitCore l).1.isEmpty = true
  · rw [if_pos hc] at ht
    exact hd t ht
  · rw [if_neg hc] at ht
    simp only [List.mem_cons] at ht
    rcases ht with h | h
    · exact h ▸ sub_of_pfx hp
    · exact hd t h

/-- C1. For every book list request carrying a (non-empty) search value,
the set the search stage returns is exactly the books of the incoming
query set whose title or author name case-insensitively contains the
value; quantifying over the incoming query set qs expresses the logical
AND with every other applied filter.  In particular searching "harry"
keeps every book whose title or author name contains "harry" in any
letter case. -/
theorem C1_search_semantics (st : Store) (qs : List Book) (value : String)
    (b : Book) (hv : value ≠ "") :
    b ∈ bookSearchPipeline st value qs ↔
      b ∈ qs ∧ (icontains b.title value || icontains (authorName st b) value) = true := by
  have hcs : custom_search st value qs =
      qs.filter (fun b => icontains b.title value || icontains (authorName st b) value) := by
    simp [custom_search, hv]
  unfold bookSearchPipeline search_filter
  rw [hcs]
  by_cases hterms : (splitTerms (lower value)).isEmpty = true
  · rw [if_pos hterms]
    simp only [List.mem_filter]
  · rw [if_neg hterms]
    simp only [List.mem_filter]
    constructor
    · rintro ⟨⟨hq, hmatch⟩, -⟩
      exact ⟨hq, hmatch⟩
    · rintro ⟨hq, hmatch⟩
      refine ⟨⟨hq, hmatch⟩, ?_⟩
      simp only [List.all_eq_true]
      intro t ht
      have hsub : subList t (lower value) = true := splitTerms_sub ht
      simp only [icontains, Bool.or_eq_true] at hmatch
      simp only [termMatches, Bool.or_eq_true]
      rcases hmatch with hm | hm
      · exact Or.inl (Or.inl (Or.inl (sub_trans hsub hm)))
      · exact Or.inl (Or.inl (Or.inr (sub_trans hsub hm)))

/-- Witness for C1 at the demonstration store: the non-empty search
value "harry" and the first Potter book. -/
theorem C1_search_semantics_witness :
    ("harry" : String) ≠ "" ∧
    ((⟨1, "Harry Potter and the Philosopher's Stone", 1997, 1⟩ : Book) ∈
        bookSearchPipeline demoStore "harry" demoStore.books ↔
      (⟨1, "Harry Potter and the Philosopher's Stone", 1997, 1⟩ : Book) ∈ demoStore.books ∧
        (icontains "Harry Potter and the Philosopher's Stone" "harry" ||
         icontains (authorName demoStore ⟨1, "Harry Potter and the Philosopher's Stone", 1997, 1⟩) "harry") = true) :=
  ⟨by decide,
   C1_search_semantics demoStore demoStore.books "harry"
     ⟨1, "Harry Potter and the Philosopher's Stone", 1997, 1⟩ (by decide)⟩

/-- C6. The has_books filter on the author list: a true value keeps
exactly the authors of the incoming query set owning at least one book,
a false value exactly those owning none. -/
theorem C6_has_books_filter (st : Store) (qs : List Author) (a : Author) :
    (a ∈ filter_has_books st true qs ↔
      a ∈ qs ∧ ∃ b, b ∈ st.books ∧ b.authorId = a.id) ∧
    (a ∈ filter_has_books st false qs ↔
      a ∈ qs ∧ ∀ b, b ∈ st.books → b.authorId ≠ a.id) := by
  constructor
  · simp [filter_has_books, List.mem_filter, ownsBook, List.any_eq_true, beq_iff_eq]
  · simp [filter_has_books, List.mem_filter, ownsBook, List.any_eq_true, beq_iff_eq]

/-- C7. The convenience filters of BookListView.get_queryset: with the
parameter value true, the recent filter keeps exactly the books with
publication_year at least current_year - 10, the classic filter exactly
those below 1950, and together they conjoin; quantifying over the
incoming query set expresses the AND with the other filters. -/
theorem C7_convenience_filters (cy : Int) (qs : List Book) (b : Book) :
    (b ∈ get_queryset_convenience (some "true") none cy qs ↔
      b ∈ qs ∧ cy - 10 ≤ b.publication_year) ∧
    (b ∈ get_queryset_convenience none (some "true") cy qs ↔
      b ∈ qs ∧ b.publication_year < 1950) ∧
    (b ∈ get_queryset_convenience (some "true") (some "true") cy qs ↔
      b ∈ qs ∧ (cy - 10 ≤ b.publication_year ∧ b.publication_year < 1950)) := by
  have htrue : ("true" : String).isEmpty = false := by decide
  have hlow : lower "true" = ['t', 'r', 'u', 'e'] := by decide
  refine ⟨?_, ?_, ?_⟩ <;>
    (simp [get_queryset_convenience, htrue, hlow, List.mem_filter, and_assoc]
     try tauto)

theorem insertYear_mem (y z : Int) : ∀ (l : List Int),
    z ∈ insertYear y l ↔ z = y ∨ z ∈ l
  | [] => by simp [insertYear]
  | x :: t => by
    simp only [insertYear]
    by_cases h1 : y < x
    · rw [if_pos h1]
      simp only [List.mem_cons]
    · rw [if_neg h1]
      by_cases h2 : y = x
      · rw [if_pos h2]
        subst h2
        simp only [List.mem_cons]
        tauto
      · rw [if_neg h2]
        simp only [List.mem_cons, insertYear_mem y z t]
        tauto

theorem insertYear_sorted (y : Int) : ∀ {l : List Int},
    List.Sorted (· < ·) l → List.Sorted (· < ·) (insertYear y l)
  | [], _ => by simp [insertYear]
  | x :: t, h => by
    rw [List.sorted_cons] at h
    simp only [insertYear]
    by_cases h1 : y < x
    · rw [if_pos h1]
      rw [List.sorted_cons]
      refine ⟨?_, by rw [List.sorted_cons]; exact h⟩
      intro b hb
      rcases List.mem_cons.mp hb with rfl | hb
      · exact h1
      · exact h1.trans (h.1 b hb)
    · rw [if_neg h1]
      by_cases h2 : y = x
      · rw [if_pos h2]
        rw [List.sorted_cons]
        exact h
      · rw [if_neg h2]
        rw [List.sorted_cons]
        refine ⟨?_, insertYear_sorted y h.2⟩
        intro b hb
        rcases (insertYear_mem y b t).mp hb with rfl | hb
        · exact lt_of_le_of_ne (not_lt.mp h1) (Ne.symm h2)
        · exact h.1 b hb

theorem distinctSortedYears_sorted : ∀ (l : List Int),
    List.Sorted (· < ·) (distinctSortedYears l)
  | [] => List.sorted_nil
  | y :: t => insertYear_sorted y (distinctSortedYears_sorted t)

theorem distinctSortedYears_mem (z : Int) : ∀ (l : List Int),
    z ∈ distinctSortedYears l ↔ z ∈ l
  | [] => by simp [distinctSortedYears]
  | y :: t => by
    show z ∈ insertYear y (distinctSortedYears t) ↔ z ∈ y :: t
    rw [insertYear_mem, distinctSortedYears_mem z t, List.mem_cons]

/-- C8. The statistics block of the author detail response: total_books
is the number of books owned by the author, publication_years is
strictly ascending (hence distinct) and holds exactly the publication
years of the owned books (empty when there are none); at the
demonstration store the 1997/1998 author yields (2, [1997, 1998]). -/
theorem C8_author_statistics (st : Store) (aid : Nat) :
    (authorStatistics st aid).1 = (booksOf st aid).length ∧
    List.Sorted (· < ·) (authorStatistics st aid).2 ∧
    (∀ y : Int, y ∈ (authorStatistics st aid).2 ↔
      ∃ b, b ∈ booksOf st aid ∧ b.publication_year = y) ∧
    authorStatistics demoStore 1 = (2, [1997, 1998]) := by
  refine ⟨rfl, ?_, ?_, by decide⟩
  · by_cases h : (booksOf st aid).length > 0
    · simp only [authorStatistics]
      rw [if_pos h]
      exact distinctSortedYears_sorted _
    · simp only [authorStatistics]
      rw [if_neg h]
      exact List.sorted_nil
  · intro y
    by_cases h : (booksOf st aid).length > 0
    · simp only [authorStatistics]
      rw [if_pos h]
      rw [distinctSortedYears_mem, List.mem_map]
    · simp only [authorStatistics]
      rw [if_neg h]
      have hnil : booksOf st aid = [] :=
        List.length_eq_zero.mp (Nat.le_antisymm (Nat.not_lt.mp h) (Nat.zero_le _))
      simp [hnil]

theorem cmpLin_swap {α : Type} [LinearOrder α] (x y : α) :
    (cmpLin x y).swap = cmpLin y x := by
  rcases lt_trichotomy x y with h | h | h
  · simp [cmpLin, h, lt_asymm h, Ordering.swap]
  · subst h
    simp [cmpLin, lt_irrefl, Ordering.swap]
  · simp [cmpLin, h, lt_asymm h, Ordering.swap]

theorem cmpLin_eq_eq {α : Type} [LinearOrder α] {x y : α} :
    cmpLin x y = .eq ↔ x = y := by
  unfold cmpLin
  split_ifs with h1 h2
  · simp [h1.ne]
  · simp [h2.ne']
  · simp [le_antisymm (not_lt.mp h2) (not_lt.mp h1)]

theorem cmpLin_eq_lt {α : Type} [LinearOrder α] {x y : α} :
    cmpLin x y = .lt ↔ x < y := by
  unfold cmpLin
  split_ifs with h1 h2
  · simp [h1]
  · simp [h1]
  · simp [h1]

theorem cmpField_swap (st : Store) (f : OrdField) (x y : Book) :
    (cmpField st f x y).swap = cmpField st f y x := by
  cases f <;> exact cmpLin_swap _ _

theorem cmpField_eq_trans (st : Store) (f : OrdField) {a b c : Book}
    (h1 : cmpField st f a b = .eq) (h2 : cmpField st f b c = .eq) :
    cmpField st f a c = .eq := by
  cases f <;>
    (simp only [cmpField, cmpLin_eq_eq] at h1 h2 ⊢; exact h1.trans h2)

theorem cmpField_lt_trans (st : Store) (f : OrdField) {a b c : Book}
    (h1 : cmpField st f a b = .lt) (h2 : cmpField st f b c = .lt) :
    cmpField st f a c = .lt := by
  cases f <;>
    (simp only [cmpField, cmpLin_eq_lt] at h1 h2 ⊢; exact h1.trans h2)

theorem cmpField_congr_left (st : Store) (f : OrdField) {a b : Book} (c : Book)
    (h : cmpField st f a b = .eq) : cmpField st f a c = cmpField st f b c := by
  cases f <;> (simp only [cmpField, cmpLin_eq_eq] at h; rw [cmpField, cmpField, h])

theorem cmpField_congr_right (st : Store) (f : OrdField) (a : Book) {b c : Book}
    (h : cmpField st f b c = .eq) : cmpField st f a b = cmpField st f a c := by
  cases f <;> (simp only [cmpField, cmpLin_eq_eq] at h; rw [cmpField, cmpField, h])

theorem cmpTerm_swap (st : Store) (t : OrdTerm) (x y : Book) :
    (cmpTerm st t x y).swap = cmpTerm st t y x := by
  unfold cmpTerm
  by_cases hd : t.desc = true
  · rw [if_pos hd, if_pos hd]
    exact cmpField_swap st t.field y x
  · rw [if_neg hd, if_neg hd]
    exact cmpField_swap st t.field x y

theorem cmpTerm_eq_trans (st : Store) (t : OrdTerm) {a b c : Book}
    (h1 : cmpTerm st t a b = .eq) (h2 : cmpTerm st t b c = .eq) :
    cmpTerm st t a c = .eq := by
  unfold cmpTerm at h1 h2 ⊢
  by_cases hd : t.desc = true
  · rw [if_pos hd] at h1 h2 ⊢
    exact cmpField_eq_trans st t.field h2 h1
  · rw [if_neg hd] at h1 h2 ⊢
    exact cmpField_eq_trans st t.field h1 h2

theorem cmpTerm_lt_trans (st : Store) (t : OrdTerm) {a b c : Book}
    (h1 : cmpTerm st t a b = .lt) (h2 : cmpTerm st t b c = .lt) :
    cmpTerm st t a c = .lt := by
  unfold cmpTerm at h1 h2 ⊢
  by_cases hd : t.desc = true
  · rw [if_pos hd] at h1 h2 ⊢
    exact cmpField_lt_trans st t.field h2 h1
  · rw [if_neg hd] at h1 h2 ⊢
    exact cmpField_lt_trans st t.field h1 h2

theorem ordSwapEq {o : Ordering} (h : o.swap = .eq) : o = .eq := by
  cases o
  · exact absurd h (by simp [Ordering.swap])
  · rfl
  · exact absurd h (by simp [Ordering.swap])

theorem cmpTerm_congr_left (st : Store) (t : OrdTerm) {a b : Book} (c : Book)
    (h : cmpTerm st t a b = .eq) : cmpTerm st t a c = cmpTerm st t b c := by
  rcases t with ⟨f, d⟩
  cases d
  · have h' : cmpField st f a b = .eq := h
    exact cmpField_congr_left st f c h'
  · have h' : cmpField st f b a = .eq := h
    show cmpField st f c a = cmpField st f c b
    exact cmpField_congr_right st f c
      (ordSwapEq (by rw [cmpField_swap st f a b]; exact h'))

theorem cmpTerm_congr_right (st : Store) (t : OrdTerm) (a : Book) {b c : Book}
    (h : cmpTerm st t b c = .eq) : cmpTerm st t a b = cmpTerm st t a c := by
  rcases t with ⟨f, d⟩
  cases d
  · have h' : cmpField st f b c = .eq := h
    exact cmpField_congr_right st f a h'
  · have h' : cmpField st f c b = .eq := h
    show cmpField st f b a = cmpField st f c a
    exact cmpField_congr_left st f a
      (ordSwapEq (by rw [cmpField_swap st f b c]; exact h'))

theorem cmpTerms_swap (st : Store) : ∀ (ts : List OrdTerm) (x y : Book),
    (cmpTerms st ts x y).swap = cmpTerms st ts y x
  | [], _, _ => rfl
  | t :: ts, x, y => by
    simp only [cmpTerms]
    cases h : cmpTerm st t x y with
    | eq =>
      have h' : cmpTerm st t y x = .eq := by
        rw [← cmpTerm_swap st t x y, h]; rfl
      rw [h']
      exact cmpTerms_swap st ts x y
    | lt =>
      have h' : cmpTerm st t y x = .gt := by
        rw [← cmpTerm_swap st t x y, h]; rfl
      rw [h']
      rfl
    | gt =>
      have h' : cmpTerm st t y x = .lt := by
        rw [← cmpTerm_swap st t x y, h]; rfl
      rw [h']
      rfl

theorem bookLe_total (st : Store) (ts : List OrdTerm) (x y : Book) :
    bookLe st ts x y ∨ bookLe st ts y x := by
  unfold bookLe
  cases h : cmpTerms st ts x y with
  | eq => exact Or.inl (by simp [h])
  | lt => exact Or.inl (by simp [h])
  | gt =>
    refine Or.inr ?_
    rw [← cmpTerms_swap st ts x y, h]
    simp [Ordering.swap]

theorem cmpTerms_le_trans (st : Store) : ∀ (ts : List OrdTerm) {a b c : Book},
    cmpTerms st ts a b ≠ .gt → cmpTerms st ts b c ≠ .gt → cmpTerms st ts a c ≠ .gt
  | [], _, _, _, _, _ => by simp [cmpTerms]
  | t :: ts, a, b, c, h1, h2 => by
    simp only [cmpTerms] at h1 h2 ⊢
    cases e1 : cmpTerm st t a b with
    | gt => rw [e1] at h1; exact absurd rfl h1
    | lt =>
      cases e2 : cmpTerm st t b c with
      | gt => rw [e2] at h2; exact absurd rfl h2
      | lt => rw [cmpTerm_lt_trans st t e1 e2]; simp
      | eq => rw [← cmpTerm_congr_right st t a e2, e1]; simp
    | eq =>
      cases e2 : cmpTerm st t b c with
      | gt => rw [e2] at h2; exact absurd rfl h2
      | lt => rw [cmpTerm_congr_left st t c e1, e2]; simp
      | eq =>
        rw [cmpTerm_eq_trans st t e1 e2]
        rw [e1] at h1
        rw [e2] at h2
        exact cmpTerms_le_trans st ts h1 h2

theorem bookLe_trans (st : Store) (ts : List OrdTerm) {a b c : Book}
    (h1 : bookLe st ts a b) (h2 : bookLe st ts b c) : bookLe st ts a c :=
  cmpTerms_le_trans st ts h1 h2

theorem foldl_keep_filter {α : Type} (p : α → Bool) : ∀ (l : List α) (acc : List α),
    l.foldl (fun a x => if p x then a ++ [x] else a) acc = acc ++ l.filter p
  | [], acc => by simp
  | x :: t, acc => by
    simp only [List.foldl_cons]
    by_cases hp : p x = true
    · rw [if_pos hp, foldl_keep_filter p t (acc ++ [x])]
      simp [hp]
    · rw [if_neg hp, foldl_keep_filter p t acc]
      simp [hp]

/-- C2 (amended). For every ordering expression, the book list ordering
stage returns a permutation of the incoming query set that is sorted
with respect to the validated, parsed ordering terms (non-decreasing on
each ascending key, non-increasing on each descending key,
lexicographically in term order); records whose keys all compare equal
are not further ordered by identifier. -/
theorem C2_ordering_sorted (st : Store) (s : String) (qs : List Book) :
    List.Sorted (bookLe st ((get_ordering_books s).filterMap parseTerm))
      (bookOrderPipeline st s qs) ∧
    List.Perm (bookOrderPipeline st s qs) qs := by
  haveI : IsTotal Book (bookLe st ((get_ordering_books s).filterMap parseTerm)) :=
    ⟨bookLe_total st _⟩
  haveI : IsTrans Book (bookLe st ((get_ordering_books s).filterMap parseTerm)) :=
    ⟨fun _ _ _ h1 h2 => bookLe_trans st _ h1 h2⟩
  exact ⟨List.sorted_insertionSort _ _, List.perm_insertionSort _ _⟩

/-- Counterexample to C2 as stated: in a store holding two books with
the same title and primary keys 2 and 1 (in that underlying order), the
allow-listed ordering expression title returns the key-2 book first, so
equal ordering keys are not tie-broken by ascending identifier. -/
theorem C2_tie_counterexample :
    bookOrderPipeline tieStore "title" [tieB2, tieB1] = [tieB2, tieB1] ∧
    tieB1.title = tieB2.title ∧ tieB1.id < tieB2.id := by decide

/-- C3. The ordering validation of the live endpoints: on the book list
each comma-separated term whose field (after stripping a leading minus
sign) is not in the allow-list {title, publication_year, author__name,
id} is silently dropped, and the fixed default of ascending title
applies when no valid term remains (in particular the doubly negated
term --title is dropped and the default applies); on the author list
the same backend validates against {name, id} and falls back to
ascending name. -/
theorem C3_ordering_validation_live (s p : String) :
    drf_get_ordering_books (some s) = orderingSpecBooksLive s ∧
    drf_get_ordering_books none = ["title".toList] ∧
    drf_get_ordering_authors (some p) = orderingSpecAuthors p ∧
    drf_get_ordering_authors none = ["name".toList] ∧
    drf_get_ordering_books (some "--title") = ["title".toList] := by
  refine ⟨?_, rfl, ?_, rfl, by decide⟩
  · simp only [drf_get_ordering_books, orderingSpecBooksLive]
    by_cases h : s.toList.isEmpty = true
    · rw [if_pos h]
      have h0 : s.toList = [] := by
        simpa using h
      rw [h0]
      decide
    · rw [if_neg h]
  · simp only [drf_get_ordering_authors, orderingSpecAuthors]
    by_cases h : p.toList.isEmpty = true
    · rw [if_pos h]
      have h0 : p.toList = [] := by
        simpa using h
      rw [h0]
      decide
    · rw [if_neg h]

/-- C4. A book create or update submission whose publication_year lies
strictly beyond the current calendar year is answered 400 with a
field-level error on publication_year and leaves the store unchanged;
a year at most the current one passes the publication-year validation. -/
theorem C4_publication_year_validation (auth : AuthState) (cy : Int) (st : Store)
    (p : BookPayload) (pk : Nat)
    (hauth : auth.isAuthenticated = true)
    (hpk : (st.books.find? (fun b => b.id == pk)).isSome = true)
    (hyear : p.publication_year > cy) :
    ((handleBookCreate auth cy st p).1.status = 400 ∧
     ("publication_year", "Publication year cannot be in the future.") ∈
       (handleBookCreate auth cy st p).1.fieldErrors ∧
     (handleBookCreate auth cy st p).2 = st) ∧
    ((handleBookUpdate auth cy st pk p).1.status = 400 ∧
     ("publication_year", "Publication year cannot be in the future.") ∈
       (handleBookUpdate auth cy st pk p).1.fieldErrors ∧
     (handleBookUpdate auth cy st pk p).2 = st) ∧
    (∀ v : Int, v ≤ cy → validate_publication_year cy v = .ok v) := by
  have hval : validate_publication_year cy p.publication_year =
      .error "Publication year cannot be in the future." := by
    unfold validate_publication_year
    rw [if_pos hyear]
  have hmem : ∀ ex, ("publication_year", "Publication year cannot be in the future.") ∈
      bookFieldErrors st cy p ex := by
    intro ex
    unfold bookFieldErrors
    rw [hval]
    simp
  have hne : ∀ ex, (bookFieldErrors st cy p ex).isEmpty = false := by
    intro ex
    have h1 : bookFieldErrors st cy p ex ≠ [] := List.ne_nil_of_mem (hmem ex)
    rcases he : (bookFieldErrors st cy p ex).isEmpty with _ | _
    · rfl
    · exact absurd (List.isEmpty_iff.mp he) h1
  have hC : handleBookCreate auth cy st p = (⟨400, bookFieldErrors st cy p none⟩, st) := by
    unfold handleBookCreate
    rw [hauth]
    rw [if_neg (by simp)]
    have := hne none
    simp [this]
  obtain ⟨bb, hbb⟩ := Option.isSome_iff_exists.mp hpk
  have hU : handleBookUpdate auth cy st pk p =
      (⟨400, bookFieldErrors st cy p (some pk)⟩, st) := by
    unfold handleBookUpdate
    rw [hauth]
    rw [if_neg (by simp)]
    rw [hbb]
    have := hne (some pk)
    simp [this]
  refine ⟨?_, ?_, ?_⟩
  · rw [hC]
    exact ⟨rfl, hmem none, rfl⟩
  · rw [hU]
    exact ⟨rfl, hmem (some pk), rfl⟩
  · intro v hv
    unfold validate_publication_year
    rw [if_neg (not_lt.mpr hv)]

/-- Witness for C4: an authenticated request in year 2025 submitting
publication year 2030 against the demonstration store. -/
theorem C4_publication_year_validation_witness :
    (handleBookCreate ⟨true, true⟩ 2025 demoStore ⟨"New", 2030, 1⟩).1.status = 400 ∧
    (handleBookCreate ⟨true, true⟩ 2025 demoStore ⟨"New", 2030, 1⟩).2 = demoStore ∧
    (handleBookUpdate ⟨true, true⟩ 2025 demoStore 1 ⟨"New", 2030, 1⟩).1.status = 400 :=
  ⟨(C4_publication_year_validation ⟨true, true⟩ 2025 demoStore ⟨"New", 2030, 1⟩ 1
      rfl (by decide) (by decide)).1.1,
   (C4_publication_year_validation ⟨true, true⟩ 2025 demoStore ⟨"New", 2030, 1⟩ 1
      rfl (by decide) (by decide)).1.2.2,
   (C4_publication_year_validation ⟨true, true⟩ 2025 demoStore ⟨"New", 2030, 1⟩ 1
      rfl (by decide) (by decide)).2.1.1⟩

/-- C5. An unauthenticated request to any mutating book endpoint
(create, update, delete) is answered 401 or 403 and leaves the store
untouched. -/
theorem C5_unauthenticated_mutations (auth : AuthState) (cy : Int) (st : Store)
    (p : BookPayload) (pk : Nat) (h : auth.isAuthenticated = false) :
    ((handleBookCreate auth cy st p).1.status = 401 ∨
     (handleBookCreate auth cy st p).1.status = 403) ∧
    (handleBookCreate auth cy st p).2 = st ∧
    ((handleBookUpdate auth cy st pk p).1.status = 401 ∨
     (handleBookUpdate auth cy st pk p).1.status = 403) ∧
    (handleBookUpdate auth cy st pk p).2 = st ∧
    ((handleBookDelete auth st pk).1.status = 401 ∨
     (handleBookDelete auth st pk).1.status = 403) ∧
    (handleBookDelete auth st pk).2 = st := by
  have hC : handleBookCreate auth cy st p = (⟨deniedStatus auth, []⟩, st) := by
    unfold handleBookCreate
    rw [h, if_pos (by simp)]
  have hU : handleBookUpdate auth cy st pk p = (⟨deniedStatus auth, []⟩, st) := by
    unfold handleBookUpdate
    rw [h, if_pos (by simp)]
  have hD : handleBookDelete auth st pk = (⟨deniedStatus auth, []⟩, st) := by
    unfold handleBookDelete
    rw [h, if_pos (by simp)]
  have hS : deniedStatus auth = 401 ∨ deniedStatus auth = 403 := by
    unfold deniedStatus
    rcases hc : auth.hasCredentials with _ | _
    · rw [if_neg (by simp)]
      exact Or.inl rfl
    · rw [if_pos rfl]
      exact Or.inr rfl
  rw [hC, hU, hD]
  exact ⟨hS, rfl, hS, rfl, hS, rfl⟩

/-- Witness for C5: a credential-less request against the demonstration
store. -/
theorem C5_unauthenticated_mutations_witness :
    ((handleBookCreate ⟨false, false⟩ 2025 demoStore ⟨"X", 2000, 1⟩).1.status = 401 ∨
     (handleBookCreate ⟨false, false⟩ 2025 demoStore ⟨"X", 2000, 1⟩).1.status = 403) ∧
    (handleBookDelete ⟨false, false⟩ demoStore 1).2 = demoStore :=
  ⟨(C5_unauthenticated_mutations ⟨false, false⟩ 2025 demoStore ⟨"X", 2000, 1⟩ 1 rfl).1,
   (C5_unauthenticated_mutations ⟨false, false⟩ 2025 demoStore ⟨"X", 2000, 1⟩ 1 rfl).2.2.2.2.2⟩

/-- C9 (spec-modelled pagination). Every book list page holds at most
the fixed page size of 20 records, the maximum page size is 100, and
the 1-indexed numeric page parameter selects exactly the corresponding
slice of the ordered result. -/
theorem C9_pagination (page : Nat) (l : List Book) (h : 1 ≤ page) :
    (paginateBooks page l).length ≤ bookPageSize ∧
    bookPageSize = 20 ∧ bookPageSize ≤ maxPageSize ∧ maxPageSize = 100 ∧
    l.take ((page - 1) * bookPageSize) ++
      (paginateBooks page l ++ l.drop (page * bookPageSize)) = l := by
  refine ⟨?_, rfl, by decide, rfl, ?_⟩
  · unfold paginateBooks
    exact List.length_take_le _ _
  · unfold paginateBooks bookPageSize
    have h20 : page * 20 = (page - 1) * 20 + 20 := by omega
    rw [h20, List.drop_take_append_drop, List.take_append_drop]

/-- Witness for C9: the first page of the demonstration store's books. -/
theorem C9_pagination_witness :
    (paginateBooks 1 demoStore.books).length ≤ bookPageSize ∧
    demoStore.books.take ((1 - 1) * bookPageSize) ++
      (paginateBooks 1 demoStore.books ++ demoStore.books.drop (1 * bookPageSize)) =
      demoStore.books :=
  ⟨(C9_pagination 1 demoStore.books (by decide)).1,
   (C9_pagination 1 demoStore.books (by decide)).2.2.2.2⟩

/-- C10. The book detail response carries a related_books key exactly
when the book's author owns at least one other book; when present it
holds at most 5 books, all by the same author and excluding the
requested one, and when the author owns no other book the key is absent
(none) rather than an empty list. -/
theorem C10_related_books (st : Store) (b : Book) :
    ((bookDetailRelated st b).isSome = true ↔
      ∃ x, x ∈ st.books ∧ x.authorId = b.authorId ∧ x.id ≠ b.id) ∧
    (∀ l, bookDetailRelated st b = some l →
      l.length ≤ 5 ∧
      ∀ x, x ∈ l → x ∈ st.books ∧ x.authorId = b.authorId ∧ x.id ≠ b.id) := by
  have hF : ∀ x, x ∈ st.books.filter
        (fun x => x.authorId == b.authorId && !(x.id == b.id)) ↔
      x ∈ st.books ∧ x.authorId = b.authorId ∧ x.id ≠ b.id := by
    intro x
    simp [List.mem_filter]
  have hmemRel : ∀ x, x ∈ relatedBooksOf st b →
      x ∈ st.books ∧ x.authorId = b.authorId ∧ x.id ≠ b.id := by
    intro x hx
    have hx1 : x ∈ order_by st [⟨OrdField.title, false⟩]
        (st.books.filter (fun x => x.authorId == b.authorId && !(x.id == b.id))) :=
      List.mem_of_mem_take hx
    rw [order_by, List.mem_insertionSort] at hx1
    exact (hF x).mp hx1
  have hEmpty : (relatedBooksOf st b).isEmpty = true ↔
      ¬ ∃ x, x ∈ st.books ∧ x.authorId = b.authorId ∧ x.id ≠ b.id := by
    rw [List.isEmpty_iff]
    unfold relatedBooksOf
    rw [List.take_eq_nil_iff]
    constructor
    · rintro (h5 | hnil)
      · exact absurd h5 (by decide)
      · have hp := List.perm_insertionSort
          (bookLe st [⟨OrdField.title, false⟩])
          (st.books.filter (fun x => x.authorId == b.authorId && !(x.id == b.id)))
        rw [order_by] at hnil
        rw [hnil] at hp
        have hFnil := hp.symm.eq_nil
        rintro ⟨x, hx⟩
        have := (hF x).mpr hx
        rw [hFnil] at this
        exact absurd this (List.not_mem_nil x)
    · intro hno
      refine Or.inr ?_
      rw [order_by]
      have hFnil : st.books.filter
          (fun x => x.authorId == b.authorId && !(x.id == b.id)) = [] := by
        rcases hh : st.books.filter
            (fun x => x.authorId == b.authorId && !(x.id == b.id)) with _ | ⟨y, ys⟩
        · exact hh
        · exfalso
          apply hno
          refine ⟨y, (hF y).mp ?_⟩
          rw [hh]
          exact List.mem_cons_self y ys
      rw [hFnil]
      rfl
  constructor
  · unfold bookDetailRelated
    by_cases hre : (relatedBooksOf st b).isEmpty = true
    · rw [if_pos hre]
      simp only [Option.isSome_none, Bool.false_eq_true, false_iff]
      exact hEmpty.mp hre
    · rw [if_neg hre]
      simp only [Option.isSome_some, true_iff]
      by_contra hno
      exact hre (hEmpty.mpr hno)
  · intro l hl
    unfold bookDetailRelated at hl
    by_cases hre : (relatedBooksOf st b).isEmpty = true
    · rw [if_pos hre] at hl
      exact absurd hl (by simp)
    · rw [if_neg hre] at hl
      have hrel : relatedBooksOf st b = l := Option.some.inj hl
      subst hrel
      refine ⟨List.length_take_le _ _, ?_⟩
      intro x hx
      exact hmemRel x hx

end ApiModel
